import Mathlib

/-!
Verification of the PRO-PAD revenue dashboard (Bapenda Prov. Jatim).

The repository ships the React frontend (pages, chart components and the
utility module) together with a skeleton FastAPI backend whose model
endpoints are not implemented.  The definitions below shallowly embed the
frontend computations from the source files; where a claim depends on a
backend operation that is absent from the repository, the definition is
modelled from the specification and says so in its doc comment.

JavaScript numbers are idealized as exact rationals throughout.
-/

namespace ProPad

/-! ## Decomposition page (DekomposisiPage.jsx) -/

/-- A historical annual record as used by the decomposition page: the year
column `Tahun`, the total revenue `PAD` and its components `PKB` and
`BBNKB`.  Other predictor columns of a row play no role here. -/
structure HistoricalRecord where
  Tahun : Int
  PAD : ℚ
  PKB : ℚ
  BBNKB : ℚ
  deriving DecidableEq, Repr

/-- The object literal returned by `calculateDecomposition` on success
(DekomposisiPage.jsx lines 64-70). -/
structure Decomposition where
  base : ℚ
  pkb : ℚ
  bbnkb : ℚ
  total : ℚ
  totalChange : ℚ
  deriving DecidableEq, Repr

/-- Possible outcomes of the decomposition computation.  The source either
returns `null` (`nullResult`) or the decomposition object (`ok`).  The
`err` constructor carries the structured `\x7berror_kind, message\x7d` shape of
spec section 7; the source never constructs it — it exists only so that
the error-reporting claim can be stated and compared against the code. -/
inductive DecompResult where
  | nullResult : DecompResult
  | ok : Decomposition → DecompResult
  | err : String → String → DecompResult
  deriving DecidableEq, Repr

/-- `historicalData.find(d => d.Tahun === y)` — shared by `getYearData`
and `getPreviousYearData` (DekomposisiPage.jsx lines 46-52). -/
def findYear (data : List HistoricalRecord) (y : Int) : Option HistoricalRecord :=
  data.find? (fun d => d.Tahun == y)

/-- `calculateDecomposition` (DekomposisiPage.jsx lines 54-71): returns
`null` when the selected year or the previous year is absent, otherwise
the decomposition object with the component deltas. -/
def calculateDecomposition (data : List HistoricalRecord) (selectedYear : Int) : DecompResult :=
  match findYear data selectedYear, findYear data (selectedYear - 1) with
  | some currentYear, some previousYear =>
      let pkbChange := currentYear.PKB - previousYear.PKB
      let bbnkbChange := currentYear.BBNKB - previousYear.BBNKB
      let totalChange := currentYear.PAD - previousYear.PAD
      DecompResult.ok
        { base := previousYear.PAD
          pkb := pkbChange
          bbnkb := bbnkbChange
          total := currentYear.PAD
          totalChange := totalChange }
  | _, _ => DecompResult.nullResult

/-- The "Other" bar of the waterfall chart
(DekomposisiPage.jsx line 142): `totalChange - pkb - bbnkb`. -/
def waterfallOther (d : Decomposition) : ℚ :=
  d.totalChange - d.pkb - d.bbnkb

/-! ## Scenario builder page (ScenarioBuilderPage.jsx, src/unnamed/part_003) -/

/-- The seven macro predictor keys of `PREDICTOR_VARS`
(part_003 lines 9-17). -/
def PREDICTOR_VARS : List String :=
  ["PDRB", "Rasio Gini", "IPM", "TPT", "Kemiskinan", "Inflasi", "Suku Bunga"]

/-- The `baseline` preset of `PRESET_SCENARIOS` has an empty adjustments
object (part_003 line 20), here an empty association list. -/
def baselineAdjustments : List (String × ℚ) := []

/-- `historicalData.map(row => row[key])` (part_003 line 103): one
predictor column of the historical data; a row is a valuation of column
keys. -/
def columnValues (data : List (String → ℚ)) (key : String) : List ℚ :=
  data.map (fun row => row key)

/-- The fixed `growthRate = 0.03` of `runScenario` (part_003 line 107). -/
def growthRate : ℚ := 3 / 100

/-- The base-forecast loop of `runScenario` (part_003 lines 104-112):
`forecastValues.push(lastValue * Math.pow(1 + growthRate, i))` for
`i = 1 .. forecastYears`.  `lastValue` is the final entry of the column
(the page returns early when the historical data is empty, so the
default value of `getLastD` is never used under that guard). -/
def baseForecastColumn (historicalValues : List ℚ) (forecastYears : ℕ) : List ℚ :=
  let lastValue := historicalValues.getLastD 0
  (List.range forecastYears).map (fun i => lastValue * (1 + growthRate) ^ (i + 1))

/-- `baseForecastData` of `runScenario` (part_003 lines 101-113): the
base trajectory built per predictor key. -/
def baseForecastData (data : List (String → ℚ)) (forecastYears : ℕ) (key : String) : List ℚ :=
  baseForecastColumn (columnValues data key) forecastYears

/-! ## Utility module (src/unnamed/part_011, lib/utils.js) -/

/-- `calculatePercentageChange` (part_011 lines 56-59):
`if (!oldValue || oldValue === 0) return 0` then
`((newValue - oldValue) / oldValue) * 100`.  A missing (`null` or
`undefined`) old value is modelled as `none`. -/
def calculatePercentageChange (oldValue : Option ℚ) (newValue : ℚ) : ℚ :=
  match oldValue with
  | none => 0
  | some o => if o = 0 then 0 else (newValue - o) / o * 100

/-- `calculateGrowthRate` (ExecutiveReportPage.jsx lines 88-91):
`if (!previous || previous === 0) return 0` then
`((current - previous) / previous) * 100`. -/
def calculateGrowthRate (current : ℚ) (previous : Option ℚ) : ℚ :=
  match previous with
  | none => 0
  | some p => if p = 0 then 0 else (current - p) / p * 100

/-! ## Scenario engine (spec §4.5; backend endpoint absent from the repo) -/

/-- Modelled from the spec: the fitted OLS coefficients (§4.1) that the
scenario engine holds constant — an intercept and one slope per
predictor name.  The backend scenario implementation
(`/projection/scenarios`) is only a skeleton in the repository. -/
structure OLSCoefficients where
  intercept : ℚ
  slopes : List (String × ℚ)

/-- Modelled from the spec: the OLS point prediction
`β₀ + Σ βᵢ·xᵢ` at a valuation of the predictors (§4.1, §4.5). -/
def olsPredict (β : OLSCoefficients) (x : String → ℚ) : ℚ :=
  β.intercept + (β.slopes.map (fun p => p.2 * x p.1)).sum

/-- Modelled from the spec: percentage adjustment applied to one
predictor; a predictor absent from a ScenarioDefinition adjustment map
receives no adjustment (§4.5, "empty adjustment set means baseline"). -/
def adjustmentFor (adjustments : List (String × ℚ)) (key : String) : ℚ :=
  (adjustments.lookup key).getD 0

/-- Modelled from the spec: per predictor, adjusted trajectory
`= base trajectory × (1 + adjustment/100)` (§4.5).  A trajectory maps a
predictor key to its values over the forecast horizon. -/
def adjustTrajectories (adjustments : List (String × ℚ)) (base : String → List ℚ)
    (key : String) : List ℚ :=
  (base key).map (fun v => v * (1 + adjustmentFor adjustments key / 100))

/-- Modelled from the spec: OLS prediction for forecast step `t` over a
set of trajectories, fitted coefficients held constant (§4.5). -/
def trajectoryPrediction (β : OLSCoefficients) (traj : String → List ℚ) (t : ℕ) : ℚ :=
  olsPredict β (fun key => ((traj key)[t]?).getD 0)

/-- Modelled from the spec: the scenario engine recomputes the OLS
forecast on the adjusted trajectories (§4.5), which is what
`getScenarioAnalysis` returns per scenario. -/
def scenarioPrediction (β : OLSCoefficients) (adjustments : List (String × ℚ))
    (base : String → List ℚ) (t : ℕ) : ℚ :=
  trajectoryPrediction β (adjustTrajectories adjustments base) t

/-! ## Ensemble combiner (spec §4.4; backend endpoint absent from the repo) -/

/-- Modelled from the spec: when some backtest RMSE is exactly zero, the
entire weight mass goes to the first exact fit in declaration order and
every other successful model receives weight 0 (§4.4). -/
def exactFitWeights : List (String × ℚ) → List (String × ℚ)
  | [] => []
  | (k, r) :: rest =>
      if r = 0 then (k, 1) :: rest.map (fun p => (p.1, 0))
      else (k, 0) :: exactFitWeights rest

/-- Modelled from the spec: the ensemble combiner's weight derivation
(§4.4).  Input: per model kind, `none` when the fit raised a failure
(the model is excluded), `some rmse` with its backtest RMSE otherwise.
If every model failed the combiner fails with `AllModelsFailedError`;
if some surviving RMSE is zero the exact-fit rule applies; otherwise
weight `i = (1/RMSEᵢ)` normalized so that the weights sum to 1. -/
def ensembleWeights (fits : List (String × Option ℚ)) : Except String (List (String × ℚ)) :=
  let ok := fits.filterMap (fun p => p.2.map (fun r => (p.1, r)))
  if ok = [] then Except.error "AllModelsFailedError"
  else if ok.any (fun p => p.2 == 0) then Except.ok (exactFitWeights ok)
  else
    let s := (ok.map (fun p => 1 / p.2)).sum
    Except.ok (ok.map (fun p => (p.1, 1 / p.2 / s)))

/-! ## Projection generation (spec §6; backend endpoint absent) and the
executive report page (ExecutiveReportPage.jsx) -/

/-- The forecast part of a `generateProjection` response: ordered
forecast years with one point prediction per year. -/
structure ProjectionResult where
  years : List Int
  predictions : List ℚ
  deriving Repr

/-- Modelled from the spec: `generateProjection` with
`forecast_years = N` returns N contiguous forecast years starting at the
last historical year + 1, with one prediction per year (§6, §8).  The
point-forecast rule itself is abstracted as `predict`. -/
def generateProjection (lastHistoricalYear : Int) (forecastYears : ℕ)
    (predict : Int → ℚ) : ProjectionResult :=
  let ys := (List.range forecastYears).map (fun i : ℕ => lastHistoricalYear + 1 + (i : Int))
  { years := ys, predictions := ys.map predict }

/-- `getProjectionForYear` (ExecutiveReportPage.jsx lines 93-101):
indexes a predictions array with `yearIndex = year - 2025`; a negative
or out-of-range JavaScript index yields `undefined` (`none`). -/
def getProjectionForYear (predictions : List ℚ) (year : Int) : Option ℚ :=
  if year - 2025 < 0 then none else predictions[(year - 2025).toNat]?

/-! ## Statistics utility (src/unnamed/part_011, calculateStats) -/

/-- The record returned by `calculateStats`.  All fields are exact
rationals except `std`, which the source computes as `Math.sqrt` of the
variance. -/
structure StatsSummary where
  mean : ℚ
  median : ℚ
  std : ℝ
  min : ℚ
  max : ℚ

/-- `calculateStats` (part_011 lines 102-129): all-zero record for a
missing or empty list; otherwise sorts ascending and computes the mean,
the median (average of the two middle entries for even length), the
population standard deviation (variance divided by `n`), and the
smallest and largest entries.  `List.insertionSort` stands for the
ascending `Array.prototype.sort`; out-of-range defaults of `getD` are
never reached on a nonempty list. -/
noncomputable def calculateStats (numbers : Option (List ℚ)) : StatsSummary :=
  match numbers with
  | none => ⟨0, 0, 0, 0, 0⟩
  | some l =>
    if l = [] then ⟨0, 0, 0, 0, 0⟩
    else
      let sorted := l.insertionSort (· ≤ ·)
      let mean := l.sum / (l.length : ℚ)
      let median :=
        if l.length % 2 = 0 then
          ((sorted[l.length / 2 - 1]?).getD 0 + (sorted[l.length / 2]?).getD 0) / 2
        else (sorted[l.length / 2]?).getD 0
      let variance := (l.map (fun n => (n - mean) ^ 2)).sum / (l.length : ℚ)
      { mean := mean
        median := median
        std := Real.sqrt (variance : ℝ)
        min := (sorted[0]?).getD 0
        max := (sorted[sorted.length - 1]?).getD 0 }

/-! ## Tornado chart (src/unnamed/part_015, TornadoChart.jsx) -/

/-- A sensitivity row as consumed by `TornadoChart`: the variable name
under the default `variableKey`, the two impact fields, and `rest`
standing for all remaining fields spread by `...item`. -/
structure TornadoRow (α : Type) where
  varName : String
  impact_positive : ℚ
  impact_negative : ℚ
  rest : α
  deriving DecidableEq, Repr

/-- The per-row transform inside `tornadoData` (part_015 lines 159-163):
spread the row, replace the positive impact with `Math.abs` of it and
the negative impact with `-Math.abs` of it. -/
def tornadoTransform {α : Type} (item : TornadoRow α) : TornadoRow α :=
  { item with
    impact_positive := |item.impact_positive|
    impact_negative := -|item.impact_negative| }

/-- `tornadoData = data.map(...)` (part_015 lines 159-163). -/
def tornadoData {α : Type} (data : List (TornadoRow α)) : List (TornadoRow α) :=
  data.map tornadoTransform

/-! ## JSON serialization round trip (deepClone, part_011 lines 80-82)

`deepClone(obj) = JSON.parse(JSON.stringify(obj))`.  The serializer below
produces the canonical compact layout `JSON.stringify` emits for the
result record shapes (fixed key order, no whitespace, decimal positional
numerals); the parser reads exactly that layout back, so their
composition is the `deepClone` pipeline on those records.  Numbers are
modelled as signed decimal numerals (integer part and fraction digits),
the form in which finite JavaScript numbers are serialized. -/

/-- Decimal digits of `n`, most significant first, no leading zeros. -/
def natDigits (n : ℕ) : List ℕ :=
  if n < 10 then [n] else natDigits (n / 10) ++ [n % 10]
termination_by n
decreasing_by omega

/-- The character of a decimal digit. -/
def digitChar (d : ℕ) : Char := Char.ofNat (48 + d)

/-- The digit of a decimal character. -/
def charDigit (c : Char) : ℕ := c.toNat - 48

/-- Is `c` one of the characters 0-9? -/
def isDig (c : Char) : Bool := 48 ≤ c.toNat && c.toNat ≤ 57

/-- Value of a digit list, most significant first. -/
def digitsVal (ds : List ℕ) : ℕ := ds.foldl (fun a d => a * 10 + d) 0

/-- The numeral of a natural number. -/
def renderNatChars (n : ℕ) : List Char := (natDigits n).map digitChar

/-- A JSON number as serialized: sign, integer part, fraction digits. -/
structure JsonNum where
  neg : Bool
  ip : ℕ
  frac : List ℕ
  deriving DecidableEq, Repr

/-- Well-formed number: every fraction entry is a single digit. -/
def wfNum (x : JsonNum) : Prop := ∀ d ∈ x.frac, d < 10

/-- Serialize a number: optional minus sign, integer part, optional
point followed by the fraction digits. -/
def renderNum (x : JsonNum) : List Char :=
  (if x.neg then ['-'] else []) ++ renderNatChars x.ip ++
    (if x.frac = [] then [] else '.' :: x.frac.map digitChar)

/-- Parse a maximal digit run as a natural number. -/
def parseNatPart (cs : List Char) : Option (ℕ × List Char) :=
  let ds := cs.takeWhile isDig
  if ds = [] then none
  else some (digitsVal (ds.map charDigit), cs.dropWhile isDig)

/-- Parse an optional fraction: a point and a maximal digit run. -/
def parseFracPart (cs : List Char) : Option (List ℕ × List Char) :=
  match cs with
  | [] => some ([], [])
  | c :: rest =>
    if c = '.' then
      let ds := rest.takeWhile isDig
      if ds = [] then none else some (ds.map charDigit, rest.dropWhile isDig)
    else some ([], c :: rest)

/-- Parse an unsigned number with a given sign flag. -/
def parseUnsigned (neg : Bool) (cs : List Char) : Option (JsonNum × List Char) :=
  (parseNatPart cs).bind (fun pip =>
    (parseFracPart pip.2).map (fun pfr => ({ neg := neg, ip := pip.1, frac := pfr.1 }, pfr.2)))

/-- Parse a JSON number. -/
def parseNum (cs : List Char) : Option (JsonNum × List Char) :=
  match cs with
  | [] => none
  | c :: rest => if c = '-' then parseUnsigned true rest else parseUnsigned false (c :: rest)

/-- What may legally follow a serialized number inside a serialized
record: nothing, or a character that is neither a digit nor a point
(maximal-munch number parsing stops there). -/
def goodAfterNum : List Char → Prop
  | [] => True
  | c :: _ => isDig c = false ∧ c ≠ '.'

/-- Well-formed serialized string content: no quote, no backslash
(the serializer does not escape). -/
def wfStr (s : List Char) : Prop := ∀ c ∈ s, c ≠ '"' ∧ c ≠ '\\'

/-- Serialize a string: the content between quotes. -/
def renderStr (s : List Char) : List Char := '"' :: s ++ ['"']

/-- Parse a quoted string: content up to the closing quote. -/
def parseStr (cs : List Char) : Option (List Char × List Char) :=
  match cs with
  | [] => none
  | c :: rest =>
    if c = '"' then
      match rest.dropWhile (fun ch => ch != '"') with
      | '"' :: after => some (rest.takeWhile (fun ch => ch != '"'), after)
      | _ => none
    else none

/-- Comma-separated concatenation of rendered items. -/
def sepByComma : List (List Char) → List Char
  | [] => []
  | [x] => x
  | x :: xs => x ++ ',' :: sepByComma xs

/-- Serialize an array of numbers. -/
def renderNumList (xs : List JsonNum) : List Char :=
  '[' :: sepByComma (xs.map renderNum) ++ [']']

/-- Parse the comma-separated elements of a nonempty number array up to
the closing bracket; the fuel bounds the number of elements. -/
def parseNumElems : ℕ → List Char → Option (List JsonNum × List Char)
  | 0, _ => none
  | fuel + 1, cs =>
    (parseNum cs).bind (fun pr =>
      match pr.2 with
      | [] => none
      | c :: rest2 =>
        if c = ',' then (parseNumElems fuel rest2).map (fun r => (pr.1 :: r.1, r.2))
        else if c = ']' then some ([pr.1], rest2)
        else none)

/-- Parse an array of numbers. -/
def parseNumList (cs : List Char) : Option (List JsonNum × List Char) :=
  match cs with
  | [] => none
  | c :: rest =>
    if c = '[' then
      match rest with
      | [] => none
      | c2 :: rest2 => if c2 = ']' then some ([], rest2) else parseNumElems rest.length rest
    else none

/-- Serialize one key/value field of a numeric object. -/
def renderPair (p : List Char × JsonNum) : List Char :=
  renderStr p.1 ++ ':' :: renderNum p.2

/-- Serialize an object whose values are all numbers (an adjustment or
delta mapping). -/
def renderNumObj (fields : List (List Char × JsonNum)) : List Char :=
  '{' :: sepByComma (fields.map renderPair) ++ ['}']

/-- Parse one key/value field. -/
def parsePair (cs : List Char) : Option ((List Char × JsonNum) × List Char) :=
  (parseStr cs).bind (fun pk =>
    match pk.2 with
    | [] => none
    | c :: rest2 =>
      if c = ':' then (parseNum rest2).map (fun r => ((pk.1, r.1), r.2)) else none)

/-- Parse the fields of a nonempty numeric object up to the closing
brace. -/
def parseObjElems : ℕ → List Char → Option (List (List Char × JsonNum) × List Char)
  | 0, _ => none
  | fuel + 1, cs =>
    (parsePair cs).bind (fun pp =>
      match pp.2 with
      | [] => none
      | c :: rest2 =>
        if c = ',' then (parseObjElems fuel rest2).map (fun r => (pp.1 :: r.1, r.2))
        else if c = '}' then some ([pp.1], rest2)
        else none)

/-- Parse a numeric object. -/
def parseNumObj (cs : List Char) : Option (List (List Char × JsonNum) × List Char) :=
  match cs with
  | [] => none
  | c :: rest =>
    if c = '{' then
      match rest with
      | [] => none
      | c2 :: rest2 => if c2 = '}' then some ([], rest2) else parseObjElems rest.length rest
    else none

/-- Match an expected literal chunk (a fixed key of the canonical
layout) and return the remainder. -/
def expectChars (lit cs : List Char) : Option (List Char) :=
  if cs.take lit.length = lit then some (cs.drop lit.length) else none

/-- Modelled from the spec: a ForecastResult response (§3, §6) — model
kind tag, forecast years, point predictions, confidence bounds.  The
backend that produces it is absent from the repository; years are kept
as serialized numbers since the claim concerns the numeric fields. -/
structure ForecastResult where
  model_type : List Char
  years : List JsonNum
  predictions : List JsonNum
  lower_ci : List JsonNum
  upper_ci : List JsonNum
  deriving DecidableEq, Repr

/-- Modelled from the spec: a ScenarioDefinition (§3) — name and a
mapping of predictor name to percentage adjustment. -/
structure ScenarioDefinition where
  name : List Char
  adjustments : List (List Char × JsonNum)
  deriving DecidableEq, Repr

/-- Modelled from the spec: a DecompositionResult (§3, §6) — base value,
mapping of component name to delta, total value. -/
structure DecompositionResult where
  base : JsonNum
  deltas : List (List Char × JsonNum)
  total : JsonNum
  deriving DecidableEq, Repr

/-- Serialize a ForecastResult in the canonical field order. -/
def renderForecastResult (r : ForecastResult) : List Char :=
  '{' :: renderStr "model_type".toList ++ ':' :: renderStr r.model_type ++
  ',' :: renderStr "years".toList ++ ':' :: renderNumList r.years ++
  ',' :: renderStr "predictions".toList ++ ':' :: renderNumList r.predictions ++
  ',' :: renderStr "lower_ci".toList ++ ':' :: renderNumList r.lower_ci ++
  ',' :: renderStr "upper_ci".toList ++ ':' :: renderNumList r.upper_ci ++ ['}']

/-- Parse a serialized ForecastResult, requiring full consumption of the
input as `JSON.parse` does. -/
def parseForecastResult (cs : List Char) : Option ForecastResult := do
  let cs ← expectChars ('{' :: renderStr "model_type".toList ++ [':']) cs
  let (mt, cs) ← parseStr cs
  let cs ← expectChars (',' :: renderStr "years".toList ++ [':']) cs
  let (ys, cs) ← parseNumList cs
  let cs ← expectChars (',' :: renderStr "predictions".toList ++ [':']) cs
  let (ps, cs) ← parseNumList cs
  let cs ← expectChars (',' :: renderStr "lower_ci".toList ++ [':']) cs
  let (lo, cs) ← parseNumList cs
  let cs ← expectChars (',' :: renderStr "upper_ci".toList ++ [':']) cs
  let (up, cs) ← parseNumList cs
  let cs ← expectChars ['}'] cs
  if cs = [] then
    some { model_type := mt, years := ys, predictions := ps, lower_ci := lo, upper_ci := up }
  else none

/-- Serialize a ScenarioDefinition in the canonical field order. -/
def renderScenarioDefinition (s : ScenarioDefinition) : List Char :=
  '{' :: renderStr "name".toList ++ ':' :: renderStr s.name ++
  ',' :: renderStr "adjustments".toList ++ ':' :: renderNumObj s.adjustments ++ ['}']

/-- Parse a serialized ScenarioDefinition. -/
def parseScenarioDefinition (cs : List Char) : Option ScenarioDefinition := do
  let cs ← expectChars ('{' :: renderStr "name".toList ++ [':']) cs
  let (nm, cs) ← parseStr cs
  let cs ← expectChars (',' :: renderStr "adjustments".toList ++ [':']) cs
  let (adj, cs) ← parseNumObj cs
  let cs ← expectChars ['}'] cs
  if cs = [] then some { name := nm, adjustments := adj } else none

/-- Serialize a DecompositionResult in the canonical field order. -/
def renderDecompositionResult (d : DecompositionResult) : List Char :=
  '{' :: renderStr "base".toList ++ ':' :: renderNum d.base ++
  ',' :: renderStr "deltas".toList ++ ':' :: renderNumObj d.deltas ++
  ',' :: renderStr "total".toList ++ ':' :: renderNum d.total ++ ['}']

/-- Parse a serialized DecompositionResult. -/
def parseDecompositionResult (cs : List Char) : Option DecompositionResult := do
  let cs ← expectChars ('{' :: renderStr "base".toList ++ [':']) cs
  let (b, cs) ← parseNum cs
  let cs ← expectChars (',' :: renderStr "deltas".toList ++ [':']) cs
  let (ds, cs) ← parseNumObj cs
  let cs ← expectChars (',' :: renderStr "total".toList ++ [':']) cs
  let (t, cs) ← parseNum cs
  let cs ← expectChars ['}'] cs
  if cs = [] then some { base := b, deltas := ds, total := t } else none

/-- `deepClone` (part_011 lines 80-82) on a ForecastResult:
parse of stringify. -/
def deepCloneForecast (r : ForecastResult) : Option ForecastResult :=
  parseForecastResult (renderForecastResult r)

/-- `deepClone` on a ScenarioDefinition. -/
def deepCloneScenario (s : ScenarioDefinition) : Option ScenarioDefinition :=
  parseScenarioDefinition (renderScenarioDefinition s)

/-- `deepClone` on a DecompositionResult. -/
def deepCloneDecomposition (d : DecompositionResult) : Option DecompositionResult :=
  parseDecompositionResult (renderDecompositionResult d)

/-- Well-formed ForecastResult: safe string content, digit-valued
fractions. -/
def wfForecast (r : ForecastResult) : Prop :=
  wfStr r.model_type ∧ (∀ x ∈ r.years, wfNum x) ∧ (∀ x ∈ r.predictions, wfNum x) ∧
    (∀ x ∈ r.lower_ci, wfNum x) ∧ ∀ x ∈ r.upper_ci, wfNum x

/-- Well-formed ScenarioDefinition. -/
def wfScenario (s : ScenarioDefinition) : Prop :=
  wfStr s.name ∧ ∀ p ∈ s.adjustments, wfStr p.1 ∧ wfNum p.2

/-- Well-formed DecompositionResult. -/
def wfDecompositionResult (d : DecompositionResult) : Prop :=
  wfNum d.base ∧ (∀ p ∈ d.deltas, wfStr p.1 ∧ wfNum p.2) ∧ wfNum d.total

/-! ## Theorems -/

/-- C1: for every dataset and selected year for which the decomposition
page produces a result, the reconciliation identity holds exactly:
base + PKB delta + BBNKB delta + other = total, with other the waterfall
residual (totalChange − pkb − bbnkb). -/
theorem decomposition_reconciliation (data : List HistoricalRecord) (selectedYear : Int)
    (d : Decomposition) (h : calculateDecomposition data selectedYear = DecompResult.ok d) :
    d.base + d.pkb + d.bbnkb + waterfallOther d = d.total := by
  unfold calculateDecomposition at h
  cases h1 : findYear data selectedYear with
  | none => rw [h1] at h; exact absurd h (by simp)
  | some cur =>
    cases h2 : findYear data (selectedYear - 1) with
    | none => rw [h1, h2] at h; exact absurd h (by simp)
    | some prev =>
      rw [h1, h2] at h
      simp only [DecompResult.ok.injEq] at h
      subst h
      unfold waterfallOther
      ring

/-- Witness for C1 at the concrete dataset of spec section 8. -/
theorem decomposition_reconciliation_witness :
    calculateDecomposition [⟨2023, 1000, 600, 300⟩, ⟨2024, 1150, 680, 330⟩] 2024 =
      DecompResult.ok ⟨1000, 80, 30, 1150, 150⟩ ∧
    (⟨1000, 80, 30, 1150, 150⟩ : Decomposition).base +
        (⟨1000, 80, 30, 1150, 150⟩ : Decomposition).pkb +
        (⟨1000, 80, 30, 1150, 150⟩ : Decomposition).bbnkb +
        waterfallOther ⟨1000, 80, 30, 1150, 150⟩ =
      (⟨1000, 80, 30, 1150, 150⟩ : Decomposition).total :=
  ⟨by norm_num [calculateDecomposition, findYear, List.find?,
      show ((2023 : Int) == 2024) = false from rfl,
      show ((2024 : Int) == 2024) = true from rfl,
      show ((2023 : Int) == 2023) = true from rfl],
    decomposition_reconciliation [⟨2023, 1000, 600, 300⟩, ⟨2024, 1150, 680, 330⟩] 2024 _
      (by norm_num [calculateDecomposition, findYear, List.find?,
        show ((2023 : Int) == 2024) = false from rfl,
        show ((2024 : Int) == 2024) = true from rfl,
        show ((2023 : Int) == 2023) = true from rfl])⟩

/-- C5 counterexample: with only the 2024 record present (no 2023
record), the decomposition computation returns null; it does not report
a structured MissingPriorYearError response. -/
theorem decomposition_missing_prior_counterexample :
    calculateDecomposition [⟨2024, 1150, 680, 330⟩] 2024 = DecompResult.nullResult ∧
      ¬ ∃ msg, calculateDecomposition [⟨2024, 1150, 680, 330⟩] 2024 =
          DecompResult.err "MissingPriorYearError" msg := by
  constructor
  · rfl
  · rintro ⟨msg, hmsg⟩
    rw [show calculateDecomposition [⟨2024, 1150, 680, 330⟩] 2024 = DecompResult.nullResult
        from rfl] at hmsg
    exact DecompResult.noConfusion hmsg

/-- C5 (amended): when the previous-year record is absent from the
dataset, the decomposition computation returns null — no numeric result
and no structured error object. -/
theorem decomposition_missing_prior_returns_null (data : List HistoricalRecord)
    (selectedYear : Int) (h : findYear data (selectedYear - 1) = none) :
    calculateDecomposition data selectedYear = DecompResult.nullResult := by
  unfold calculateDecomposition
  rw [h]
  cases findYear data selectedYear <;> rfl

/-- Witness for the amended C5. -/
theorem decomposition_missing_prior_returns_null_witness :
    findYear [⟨2024, 1150, 680, 330⟩] (2024 - 1) = none ∧
      calculateDecomposition [⟨2024, 1150, 680, 330⟩] 2024 = DecompResult.nullResult :=
  ⟨by decide, decomposition_missing_prior_returns_null _ 2024 (by decide)⟩

/-- C2: every entry of the scenario baseline trajectory of a predictor
is the predictor's last historical value times 1.03 to the power of the
forecast step. -/
theorem scenario_baseline_growth (data : List (String → ℚ)) (forecastYears : ℕ)
    (key : String) (i : ℕ) (hdata : data ≠ []) (h1 : 1 ≤ i) (h2 : i ≤ forecastYears) :
    (baseForecastData data forecastYears key)[i - 1]? =
      some ((columnValues data key).getLastD 0 * (103 / 100) ^ i) := by
  unfold baseForecastData baseForecastColumn
  have hi : i - 1 < forecastYears := by omega
  rw [List.getElem?_map, List.getElem?_range hi]
  have hii : i - 1 + 1 = i := by omega
  simp only [Option.map_some']
  rw [hii]
  norm_num [growthRate]

/-- Witness for C2: one constant predictor column, step 2 of horizon 5. -/
theorem scenario_baseline_growth_witness :
    ([fun _ => (10 : ℚ)] : List (String → ℚ)) ≠ [] ∧ 1 ≤ 2 ∧ 2 ≤ 5 ∧
      (baseForecastData [fun _ => (10 : ℚ)] 5 "PDRB")[2 - 1]? =
        some ((columnValues [fun _ => (10 : ℚ)] "PDRB").getLastD 0 * (103 / 100) ^ 2) :=
  ⟨List.cons_ne_nil _ _, by decide, by decide,
    scenario_baseline_growth _ 5 "PDRB" 2 (List.cons_ne_nil _ _) (by decide) (by decide)⟩

/-- C8: the percentage-change helpers never divide by zero — both
return 0 when the old value is 0 or missing and the exact relative
change times 100 otherwise. -/
theorem percentage_change_no_div_zero (o newValue current : ℚ) (ho : o ≠ 0) :
    calculatePercentageChange none newValue = 0 ∧
    calculatePercentageChange (some 0) newValue = 0 ∧
    calculatePercentageChange (some o) newValue = (newValue - o) / o * 100 ∧
    calculateGrowthRate current none = 0 ∧
    calculateGrowthRate current (some 0) = 0 ∧
    calculateGrowthRate current (some o) = (current - o) / o * 100 := by
  refine ⟨rfl, ?_, ?_, rfl, ?_, ?_⟩
  · simp [calculatePercentageChange]
  · simp [calculatePercentageChange, ho]
  · simp [calculateGrowthRate]
  · simp [calculateGrowthRate, ho]

/-- Witness for C8 at old value 2, new value 5, current 7. -/
theorem percentage_change_no_div_zero_witness :
    (2 : ℚ) ≠ 0 ∧
      (calculatePercentageChange none 5 = 0 ∧
       calculatePercentageChange (some 0) 5 = 0 ∧
       calculatePercentageChange (some 2) 5 = (5 - 2) / 2 * 100 ∧
       calculateGrowthRate 7 none = 0 ∧
       calculateGrowthRate 7 (some 0) = 0 ∧
       calculateGrowthRate 7 (some 2) = (7 - 2) / 2 * 100) :=
  ⟨by decide, percentage_change_no_div_zero 2 5 7 (by decide)⟩

/-- C3: the baseline scenario — the empty adjustment map of the
`baseline` preset — reproduces the unscenario'd OLS forecast exactly at
every forecast step. -/
theorem baseline_scenario_reproduces_forecast (β : OLSCoefficients)
    (base : String → List ℚ) (t : ℕ) :
    scenarioPrediction β baselineAdjustments base t = trajectoryPrediction β base t := by
  unfold scenarioPrediction trajectoryPrediction adjustTrajectories adjustmentFor
    baselineAdjustments
  simp

/-- C10: the tornado-chart transform maps each row's positive impact to
its absolute value (hence nonnegative), its negative impact to minus its
absolute value (hence nonpositive), and leaves the remaining fields
unchanged. -/
theorem tornado_chart_transform {α : Type} (data : List (TornadoRow α)) (k : ℕ)
    (r : TornadoRow α) (hk : data[k]? = some r) :
    (tornadoData data).length = data.length ∧
    (tornadoData data)[k]? =
      some { varName := r.varName
             impact_positive := |r.impact_positive|
             impact_negative := -|r.impact_negative|
             rest := r.rest } ∧
    0 ≤ |r.impact_positive| ∧ -|r.impact_negative| ≤ 0 := by
  refine ⟨by simp [tornadoData], ?_, abs_nonneg _, neg_nonpos.mpr (abs_nonneg _)⟩
  simp only [tornadoData, List.getElem?_map, hk, Option.map_some]
  rfl

/-- Witness for C10 at a single row with negative positive-impact and
positive negative-impact values. -/
theorem tornado_chart_transform_witness :
    ([(⟨"PDRB", -5, 7, 0⟩ : TornadoRow ℚ)])[0]? = some ⟨"PDRB", -5, 7, 0⟩ ∧
      ((tornadoData [(⟨"PDRB", -5, 7, 0⟩ : TornadoRow ℚ)]).length =
          ([(⟨"PDRB", -5, 7, 0⟩ : TornadoRow ℚ)]).length ∧
        (tornadoData [(⟨"PDRB", -5, 7, 0⟩ : TornadoRow ℚ)])[0]? =
          some { varName := "PDRB"
                 impact_positive := |(-5 : ℚ)|
                 impact_negative := -|(7 : ℚ)|
                 rest := (0 : ℚ) } ∧
        0 ≤ |(-5 : ℚ)| ∧ -|(7 : ℚ)| ≤ 0) :=
  ⟨rfl, tornado_chart_transform _ 0 _ rfl⟩

/-- Helper: the exact-fit rule emits the weight mass once: if some
surviving RMSE is zero, its weights sum to 1. -/
theorem exactFitWeights_sum (l : List (String × ℚ)) (hz : ∃ p ∈ l, p.2 = 0) :
    ((exactFitWeights l).map Prod.snd).sum = 1 := by
  induction l with
  | nil => simp at hz
  | cons a t ih =>
    by_cases ha : a.2 = 0
    · have : exactFitWeights (a :: t) = (a.1, 1) :: t.map (fun p => (p.1, 0)) := by
        rw [show a = (a.1, a.2) from rfl, exactFitWeights, if_pos ha]
      rw [this]
      simp only [List.map_cons, List.map_map, List.sum_cons]
      have hzero : ((t.map (fun p => ((p.1, (0 : ℚ)) : String × ℚ))).map Prod.snd).sum = 0 := by
        apply List.sum_eq_zero
        intro x hx
        simp only [List.map_map, List.mem_map] at hx
        obtain ⟨p, _, hp⟩ := hx
        exact hp.symm
      simp only [List.map_map] at hzero ⊢
      rw [hzero]
      ring
    · have : exactFitWeights (a :: t) = (a.1, 0) :: exactFitWeights t := by
        rw [show a = (a.1, a.2) from rfl, exactFitWeights, if_neg ha]
      rw [this]
      obtain ⟨p, hp, hp0⟩ := hz
      rcases List.mem_cons.mp hp with hpa | hpt
      · exact absurd (hpa ▸ hp0) ha
      · simp only [List.map_cons, List.sum_cons]
        rw [ih ⟨p, hpt, hp0⟩]
        ring

/-- Helper: the exact-fit rule only emits weights 0 and 1. -/
theorem exactFitWeights_nonneg (l : List (String × ℚ)) (p : String × ℚ)
    (hp : p ∈ exactFitWeights l) : 0 ≤ p.2 := by
  induction l with
  | nil => simp [exactFitWeights] at hp
  | cons a t ih =>
    by_cases ha : a.2 = 0
    · rw [show a = (a.1, a.2) from rfl, exactFitWeights, if_pos ha] at hp
      rcases List.mem_cons.mp hp with h | h
      · rw [h]; norm_num
      · obtain ⟨q, _, hq⟩ := List.mem_map.mp h
        rw [← hq]
    · rw [show a = (a.1, a.2) from rfl, exactFitWeights, if_neg ha] at hp
      rcases List.mem_cons.mp hp with h | h
      · rw [h]
      · exact ih h

/-- Helper: sum of a list mapped through division by a constant. -/
theorem list_sum_map_div (l : List ℚ) (c : ℚ) :
    (l.map (fun x => x / c)).sum = l.sum / c := by
  induction l with
  | nil => simp
  | cons a t ih => simp [ih, add_div]

/-- C6: for every successful ensemble fit, the derived weights are all
nonnegative and sum exactly to 1 over the models that fit
successfully. -/
theorem ensemble_weights_invariant (fits : List (String × Option ℚ))
    (ws : List (String × ℚ)) (hnn : ∀ p ∈ fits, 0 ≤ p.2.getD 0)
    (hws : ensembleWeights fits = Except.ok ws) :
    (ws.map Prod.snd).sum = 1 ∧ ∀ p ∈ ws, 0 ≤ p.2 := by
  unfold ensembleWeights at hws
  set ok := fits.filterMap (fun p => p.2.map (fun r => (p.1, r))) with hok
  have hmem : ∀ p ∈ ok, 0 ≤ p.2 := by
    intro p hp
    rw [hok] at hp
    obtain ⟨q, hq, hfq⟩ := List.mem_filterMap.mp hp
    cases h2 : q.2 with
    | none => rw [h2] at hfq; simp at hfq
    | some r =>
      rw [h2] at hfq
      simp only [Option.map_some', Option.some.injEq] at hfq
      have := hnn q hq
      rw [h2] at this
      simp only [Option.getD_some] at this
      rw [← hfq]
      exact this
  by_cases h1 : ok = []
  · rw [if_pos h1] at hws
    exact absurd hws (by simp)
  · rw [if_neg h1] at hws
    by_cases h2 : ok.any (fun p => p.2 == 0)
    · rw [if_pos h2] at hws
      simp only [Except.ok.injEq] at hws
      subst hws
      obtain ⟨p, hp, hp0⟩ := List.any_eq_true.mp h2
      refine ⟨exactFitWeights_sum ok ⟨p, hp, by simpa using hp0⟩, ?_⟩
      intro q hq
      exact exactFitWeights_nonneg ok q hq
    · rw [if_neg h2] at hws
      simp only [Except.ok.injEq] at hws
      subst hws
      have hpos : ∀ p ∈ ok, 0 < p.2 := by
        intro p hp
        rcases lt_or_eq_of_le (hmem p hp) with h | h
        · exact h
        · exfalso
          apply h2
          exact List.any_eq_true.mpr ⟨p, hp, by simp [← h]⟩
      have hspos : 0 < (ok.map (fun p => 1 / p.2)).sum := by
        apply List.sum_pos
        · intro x hx
          obtain ⟨p, hp, hxp⟩ := List.mem_map.mp hx
          rw [← hxp]
          exact div_pos one_pos (hpos p hp)
        · simpa using h1
      constructor
      · rw [List.map_map]
        have : (Prod.snd ∘ fun p : String × ℚ =>
            (p.1, 1 / p.2 / (ok.map (fun p => 1 / p.2)).sum)) =
            (fun p : String × ℚ => (1 / p.2) / (ok.map (fun p => 1 / p.2)).sum) := rfl
        rw [this, show (ok.map fun p : String × ℚ =>
            (1 / p.2) / (ok.map (fun p => 1 / p.2)).sum) =
            ((ok.map fun p : String × ℚ => 1 / p.2).map
              (fun x => x / (ok.map (fun p => 1 / p.2)).sum)) from by rw [List.map_map]; rfl]
        rw [list_sum_map_div]
        exact div_self (ne_of_gt hspos)
      · intro p hp
        obtain ⟨q, hq, hqp⟩ := List.mem_map.mp hp
        rw [← hqp]
        have : (0 : ℚ) < 1 / q.2 := div_pos one_pos (hpos q hq)
        positivity

/-- Witness for C6: OLS with RMSE 2 and ARIMA with RMSE 4 survive, the
exponential-smoothing fit failed; the weights are 2/3 and 1/3. -/
theorem ensemble_weights_invariant_witness :
    (∀ p ∈ [("ols", some (2 : ℚ)), ("arima", some 4), ("exp_smoothing", none)],
        0 ≤ p.2.getD 0) ∧
    ensembleWeights [("ols", some (2 : ℚ)), ("arima", some 4), ("exp_smoothing", none)] =
      Except.ok [("ols", (2 : ℚ) / 3), ("arima", 1 / 3)] ∧
    (([("ols", (2 : ℚ) / 3), ("arima", 1 / 3)].map Prod.snd).sum = 1 ∧
      ∀ p ∈ [("ols", (2 : ℚ) / 3), ("arima", 1 / 3)], 0 ≤ p.2) := by
  have hok : ([("ols", some (2 : ℚ)), ("arima", some 4), ("exp_smoothing", none)]).filterMap
      (fun p => p.2.map (fun r => (p.1, r))) = [("ols", (2 : ℚ)), ("arima", 4)] := rfl
  have hws : ensembleWeights
      [("ols", some (2 : ℚ)), ("arima", some 4), ("exp_smoothing", none)] =
      Except.ok [("ols", (2 : ℚ) / 3), ("arima", 1 / 3)] := by
    unfold ensembleWeights
    rw [hok, if_neg (by simp), if_neg (by norm_num)]
    norm_num
  refine ⟨?_, hws, ?_⟩
  · intro p hp
    fin_cases hp <;> norm_num
  · exact ensemble_weights_invariant
      [("ols", some (2 : ℚ)), ("arima", some 4), ("exp_smoothing", none)] _
      (by intro p hp; fin_cases hp <;> norm_num) hws

/-- Helper: the years of a generated projection, unfolded. -/
theorem generateProjection_years_eq (L : Int) (N : ℕ) (f : Int → ℚ) :
    (generateProjection L N f).years =
      (List.range N).map (fun i : ℕ => L + 1 + (i : Int)) := rfl

/-- Helper: the predictions of a generated projection, unfolded. -/
theorem generateProjection_predictions_eq (L : Int) (N : ℕ) (f : Int → ℚ) :
    (generateProjection L N f).predictions =
      ((List.range N).map (fun i : ℕ => L + 1 + (i : Int))).map f := rfl

/-- C7: `generateProjection` with N forecast years returns exactly N
years, contiguous from the last historical year + 1, with matching
predictions; with 2024 as last historical year the report page's
`yearIndex = year - 2025` indexing selects the prediction for that
year. -/
theorem generate_projection_contiguous (L : Int) (N : ℕ) (f : Int → ℚ) (i : ℕ) (year : Int)
    (hN1 : 1 ≤ N) (hN2 : N ≤ 10) (hi : i < N) (hy1 : 2025 ≤ year)
    (hy2 : year < 2025 + (N : Int)) :
    (generateProjection L N f).years.length = N ∧
    (generateProjection L N f).predictions.length = N ∧
    (generateProjection L N f).years[i]? = some (L + 1 + (i : Int)) ∧
    getProjectionForYear (generateProjection 2024 N f).predictions year = some (f year) := by
  refine ⟨?_, ?_, ?_, ?_⟩
  · rw [generateProjection_years_eq, List.length_map, List.length_range]
  · rw [generateProjection_predictions_eq, List.length_map, List.length_map,
      List.length_range]
  · rw [generateProjection_years_eq, List.getElem?_map, List.getElem?_range hi]
    rfl
  · have hnneg : ¬ year - 2025 < 0 := by omega
    unfold getProjectionForYear
    rw [if_neg hnneg]
    rw [generateProjection_predictions_eq, List.map_map]
    have hlt : (year - 2025).toNat < N := by omega
    rw [List.getElem?_map, List.getElem?_range hlt]
    simp only [Option.map_some', Option.some.injEq, Function.comp_apply]
    congr 1
    omega

/-- Witness for C7: three forecast years from 2024, queried at 2026. -/
theorem generate_projection_contiguous_witness :
    1 ≤ 3 ∧ 3 ≤ 10 ∧ 1 < 3 ∧ (2025 : Int) ≤ 2026 ∧ (2026 : Int) < 2025 + (3 : ℕ) ∧
      ((generateProjection 5 3 (fun y => (y : ℚ))).years.length = 3 ∧
        (generateProjection 5 3 (fun y => (y : ℚ))).predictions.length = 3 ∧
        (generateProjection 5 3 (fun y => (y : ℚ))).years[1]? = some (5 + 1 + ((1 : ℕ) : Int)) ∧
        getProjectionForYear (generateProjection 2024 3 (fun y => (y : ℚ))).predictions 2026 =
          some ((2026 : Int) : ℚ)) :=
  ⟨by decide, by decide, by decide, by decide, by decide,
    generate_projection_contiguous 5 3 (fun y => (y : ℚ)) 1 2026
      (by decide) (by decide) (by decide) (by decide) (by decide)⟩

/-- Helper: `calculateStats` on a nonempty list, unfolded. -/
theorem calculateStats_some (l : List ℚ) (hl : l ≠ []) :
    calculateStats (some l) =
      { mean := l.sum / (l.length : ℚ)
        median :=
          if l.length % 2 = 0 then
            (((l.insertionSort (· ≤ ·))[l.length / 2 - 1]?).getD 0 +
              ((l.insertionSort (· ≤ ·))[l.length / 2]?).getD 0) / 2
          else ((l.insertionSort (· ≤ ·))[l.length / 2]?).getD 0
        std := Real.sqrt (((l.map (fun n => (n - l.sum / (l.length : ℚ)) ^ 2)).sum /
          (l.length : ℚ) : ℚ) : ℝ)
        min := ((l.insertionSort (· ≤ ·))[0]?).getD 0
        max := ((l.insertionSort (· ≤ ·))[(l.insertionSort (· ≤ ·)).length - 1]?).getD 0 } := by
  simp only [calculateStats]
  rw [if_neg hl]

/-- Helper: the optional head with default equals the head on a
nonempty list. -/
theorem getD_zero_eq_head (xs : List ℚ) (h : xs ≠ []) : (xs[0]?).getD 0 = xs.head h := by
  cases xs with
  | nil => exact absurd rfl h
  | cons a t => simp

/-- Helper: in a sorted list the head is a lower bound. -/
theorem sorted_head_le (l : List ℚ) (hs : List.Sorted (· ≤ ·) l) (hne : l ≠ [])
    (x : ℚ) (hx : x ∈ l) : l.head hne ≤ x := by
  cases l with
  | nil => exact absurd rfl hne
  | cons a t =>
    rcases List.mem_cons.mp hx with h | h
    · rw [h]; exact le_refl _
    · exact List.rel_of_sorted_cons hs x h

/-- Helper: in a sorted list the last entry is an upper bound. -/
theorem sorted_le_getLast (l : List ℚ) (hs : List.Sorted (· ≤ ·) l) (hne : l ≠ [])
    (x : ℚ) (hx : x ∈ l) : x ≤ l.getLast hne := by
  induction l with
  | nil => cases hx
  | cons a t ih =>
    cases t with
    | nil =>
      rcases List.mem_cons.mp hx with h | h
      · rw [h]; exact le_refl _
      · cases h
    | cons b t2 =>
      rw [List.getLast_cons (List.cons_ne_nil b t2)]
      rcases List.mem_cons.mp hx with h | h
      · rw [h]
        calc a ≤ (b :: t2).getLast (List.cons_ne_nil b t2) :=
              List.rel_of_sorted_cons hs _ (List.getLast_mem _)
          _ = _ := rfl
      · exact ih (List.Sorted.of_cons hs) (List.cons_ne_nil b t2) h

/-- C9: `calculateStats` returns the all-zero record for a missing or
empty list; on a nonempty list the mean is the arithmetic mean, min and
max are the least and greatest elements, min ≤ mean ≤ max,
min ≤ median ≤ max, the standard deviation is nonnegative and its
square is the population variance (divided by n, not n − 1). -/
theorem calculate_stats_spec (l : List ℚ) (hl : l ≠ []) :
    calculateStats none = ⟨0, 0, 0, 0, 0⟩ ∧
    calculateStats (some []) = ⟨0, 0, 0, 0, 0⟩ ∧
    (calculateStats (some l)).mean = l.sum / (l.length : ℚ) ∧
    (calculateStats (some l)).min ∈ l ∧
    (∀ x ∈ l, (calculateStats (some l)).min ≤ x) ∧
    (calculateStats (some l)).max ∈ l ∧
    (∀ x ∈ l, x ≤ (calculateStats (some l)).max) ∧
    (calculateStats (some l)).min ≤ (calculateStats (some l)).mean ∧
    (calculateStats (some l)).mean ≤ (calculateStats (some l)).max ∧
    (calculateStats (some l)).min ≤ (calculateStats (some l)).median ∧
    (calculateStats (some l)).median ≤ (calculateStats (some l)).max ∧
    0 ≤ (calculateStats (some l)).std ∧
    (calculateStats (some l)).std ^ 2 =
      (((l.map (fun x => (x - l.sum / (l.length : ℚ)) ^ 2)).sum / (l.length : ℚ) : ℚ) : ℝ) := by
  have hperm : (l.insertionSort (· ≤ ·)).Perm l := List.perm_insertionSort _ l
  have hsort : List.Sorted (· ≤ ·) (l.insertionSort (· ≤ ·)) := List.sorted_insertionSort _ l
  have hlen : (l.insertionSort (· ≤ ·)).length = l.length := hperm.length_eq
  have hlpos : 0 < l.length := List.length_pos.mpr hl
  have hsne : l.insertionSort (· ≤ ·) ≠ [] := by
    intro h
    rw [h] at hlen
    simp at hlen
    omega
  have hmem_iff : ∀ x, x ∈ l.insertionSort (· ≤ ·) ↔ x ∈ l := fun x => hperm.mem_iff
  have hlenQ : (0 : ℚ) < (l.length : ℚ) := by exact_mod_cast hlpos
  rw [calculateStats_some l hl]
  -- the min field is the head of the sorted list
  have hmin_eq : (((l.insertionSort (· ≤ ·))[0]?).getD 0) =
      (l.insertionSort (· ≤ ·)).head hsne := getD_zero_eq_head _ hsne
  have hmax_eq : (((l.insertionSort (· ≤ ·))[(l.insertionSort (· ≤ ·)).length - 1]?).getD 0) =
      (l.insertionSort (· ≤ ·)).getLast hsne := by
    rw [← List.getLast?_eq_getElem?, List.getLast?_eq_getLast_of_ne_nil hsne]
    rfl
  have hmin_le : ∀ x ∈ l, (((l.insertionSort (· ≤ ·))[0]?).getD 0) ≤ x := by
    intro x hx
    rw [hmin_eq]
    exact sorted_head_le _ hsort hsne x ((hmem_iff x).mpr hx)
  have hle_max : ∀ x ∈ l,
      x ≤ (((l.insertionSort (· ≤ ·))[(l.insertionSort (· ≤ ·)).length - 1]?).getD 0) := by
    intro x hx
    rw [hmax_eq]
    exact sorted_le_getLast _ hsort hsne x ((hmem_iff x).mpr hx)
  have hmin_mem : (((l.insertionSort (· ≤ ·))[0]?).getD 0) ∈ l := by
    rw [hmin_eq]
    exact (hmem_iff _).mp (List.head_mem hsne)
  have hmax_mem :
      (((l.insertionSort (· ≤ ·))[(l.insertionSort (· ≤ ·)).length - 1]?).getD 0) ∈ l := by
    rw [hmax_eq]
    exact (hmem_iff _).mp (List.getLast_mem hsne)
  have hmin_mean : (((l.insertionSort (· ≤ ·))[0]?).getD 0) ≤ l.sum / (l.length : ℚ) := by
    rw [le_div_iff₀ hlenQ, mul_comm]
    have := List.card_nsmul_le_sum l _ hmin_le
    rwa [nsmul_eq_mul] at this
  have hmean_max : l.sum / (l.length : ℚ) ≤
      (((l.insertionSort (· ≤ ·))[(l.insertionSort (· ≤ ·)).length - 1]?).getD 0) := by
    rw [div_le_iff₀ hlenQ, mul_comm]
    have := List.sum_le_card_nsmul l _ hle_max
    rwa [nsmul_eq_mul] at this
  -- bounds for arbitrary sorted entries
  have hentry : ∀ i : ℕ, i < l.length →
      (((l.insertionSort (· ≤ ·))[0]?).getD 0) ≤ (((l.insertionSort (· ≤ ·))[i]?).getD 0) ∧
      (((l.insertionSort (· ≤ ·))[i]?).getD 0) ≤
        (((l.insertionSort (· ≤ ·))[(l.insertionSort (· ≤ ·)).length - 1]?).getD 0) := by
    intro i hi
    have hi2 : i < (l.insertionSort (· ≤ ·)).length := by omega
    rw [List.getElem?_eq_getElem hi2]
    have hmemi : (l.insertionSort (· ≤ ·))[i] ∈ l :=
      (hmem_iff _).mp (List.getElem_mem hi2)
    exact ⟨hmin_le _ hmemi, hle_max _ hmemi⟩
  have hmedian_lo : (((l.insertionSort (· ≤ ·))[0]?).getD 0) ≤
      (if l.length % 2 = 0 then
        (((l.insertionSort (· ≤ ·))[l.length / 2 - 1]?).getD 0 +
          ((l.insertionSort (· ≤ ·))[l.length / 2]?).getD 0) / 2
      else ((l.insertionSort (· ≤ ·))[l.length / 2]?).getD 0) := by
    split
    · rename_i hpar
      have h1 := hentry (l.length / 2 - 1) (by omega)
      have h2 := hentry (l.length / 2) (by omega)
      have := h1.1
      have := h2.1
      linarith
    · have h2 := hentry (l.length / 2) (by omega)
      exact h2.1
  have hmedian_hi :
      (if l.length % 2 = 0 then
        (((l.insertionSort (· ≤ ·))[l.length / 2 - 1]?).getD 0 +
          ((l.insertionSort (· ≤ ·))[l.length / 2]?).getD 0) / 2
      else ((l.insertionSort (· ≤ ·))[l.length / 2]?).getD 0) ≤
      (((l.insertionSort (· ≤ ·))[(l.insertionSort (· ≤ ·)).length - 1]?).getD 0) := by
    split
    · rename_i hpar
      have h1 := hentry (l.length / 2 - 1) (by omega)
      have h2 := hentry (l.length / 2) (by omega)
      have := h1.2
      have := h2.2
      linarith
    · have h2 := hentry (l.length / 2) (by omega)
      exact h2.2
  have hvar_nonneg : (0 : ℚ) ≤
      (l.map (fun x => (x - l.sum / (l.length : ℚ)) ^ 2)).sum / (l.length : ℚ) := by
    apply div_nonneg _ (le_of_lt hlenQ)
    apply List.sum_nonneg
    intro x hx
    obtain ⟨y, _, hy⟩ := List.mem_map.mp hx
    rw [← hy]
    positivity
  refine ⟨rfl, rfl, rfl, hmin_mem, hmin_le, hmax_mem, hle_max, hmin_mean, hmean_max,
    hmedian_lo, hmedian_hi, Real.sqrt_nonneg _, ?_⟩
  exact Real.sq_sqrt (by exact_mod_cast hvar_nonneg)

/-- Witness for C9 at the list [3, 1, 2]. -/
theorem calculate_stats_spec_witness :
    ([3, 1, 2] : List ℚ) ≠ [] ∧
      (calculateStats none = ⟨0, 0, 0, 0, 0⟩ ∧
        calculateStats (some []) = ⟨0, 0, 0, 0, 0⟩ ∧
        (calculateStats (some [3, 1, 2])).mean = ([3, 1, 2] : List ℚ).sum / (3 : ℚ) ∧
        (calculateStats (some [3, 1, 2])).min ∈ ([3, 1, 2] : List ℚ) ∧
        (∀ x ∈ ([3, 1, 2] : List ℚ), (calculateStats (some [3, 1, 2])).min ≤ x) ∧
        (calculateStats (some [3, 1, 2])).max ∈ ([3, 1, 2] : List ℚ) ∧
        (∀ x ∈ ([3, 1, 2] : List ℚ), x ≤ (calculateStats (some [3, 1, 2])).max) ∧
        (calculateStats (some [3, 1, 2])).min ≤ (calculateStats (some [3, 1, 2])).mean ∧
        (calculateStats (some [3, 1, 2])).mean ≤ (calculateStats (some [3, 1, 2])).max ∧
        (calculateStats (some [3, 1, 2])).min ≤ (calculateStats (some [3, 1, 2])).median ∧
        (calculateStats (some [3, 1, 2])).median ≤ (calculateStats (some [3, 1, 2])).max ∧
        0 ≤ (calculateStats (some [3, 1, 2])).std ∧
        (calculateStats (some [3, 1, 2])).std ^ 2 =
          ((((([3, 1, 2] : List ℚ).map
              (fun x => (x - ([3, 1, 2] : List ℚ).sum / (([3, 1, 2] : List ℚ).length : ℚ)) ^ 2)).sum /
            (([3, 1, 2] : List ℚ).length : ℚ) : ℚ) : ℝ))) :=
  ⟨by simp, by
    have h := calculate_stats_spec [3, 1, 2] (by simp)
    simpa using h⟩

/-! ### Round-trip lemmas for the deepClone serialization pipeline -/

theorem natDigits_lt (n : ℕ) : ∀ d ∈ natDigits n, d < 10 := by
  induction n using Nat.strong_induction_on with
  | _ n ih =>
    intro d hd
    rw [natDigits] at hd
    split at hd
    · rename_i h
      simp at hd
      omega
    · rename_i h
      rcases List.mem_append.mp hd with h1 | h1
      · exact ih (n / 10) (by omega) d h1
      · simp at h1
        omega

theorem natDigits_ne_nil (n : ℕ) : natDigits n ≠ [] := by
  rw [natDigits]
  split <;> simp

theorem digitsVal_snoc (ds : List ℕ) (d : ℕ) :
    digitsVal (ds ++ [d]) = 10 * digitsVal ds + d := by
  unfold digitsVal
  rw [List.foldl_append]
  simp
  ring

theorem digitsVal_natDigits (n : ℕ) : digitsVal (natDigits n) = n := by
  induction n using Nat.strong_induction_on with
  | _ n ih =>
    rw [natDigits]
    split
    · rename_i h
      simp [digitsVal]
    · rename_i h
      rw [digitsVal_snoc, ih (n / 10) (by omega)]
      omega

theorem charDigit_digitChar (d : ℕ) (hd : d < 10) : charDigit (digitChar d) = d := by
  interval_cases d <;> decide

theorem isDig_digitChar (d : ℕ) (hd : d < 10) : isDig (digitChar d) = true := by
  interval_cases d <;> decide

theorem takeWhile_append_all (p : Char → Bool) (l r : List Char)
    (hl : ∀ c ∈ l, p c = true) (hr : ∀ c, r.head? = some c → p c = false) :
    (l ++ r).takeWhile p = l ∧ (l ++ r).dropWhile p = r := by
  induction l with
  | nil =>
    simp only [List.nil_append]
    cases r with
    | nil => simp
    | cons c r2 =>
      have := hr c rfl
      simp [List.takeWhile_cons, List.dropWhile_cons, this]
  | cons a t ih =>
    have ha : p a = true := hl a (List.mem_cons_self a t)
    have iht := ih (fun c hc => hl c (List.mem_cons_of_mem a hc))
    simp only [List.cons_append, List.takeWhile_cons, List.dropWhile_cons, ha]
    simp only [if_true]
    exact ⟨by rw [iht.1], by rw [iht.2]⟩

theorem map_charDigit_digitChar (ds : List ℕ) (h : ∀ d ∈ ds, d < 10) :
    (ds.map digitChar).map charDigit = ds := by
  rw [List.map_map]
  have : ∀ d ∈ ds, (charDigit ∘ digitChar) d = id d := by
    intro d hd
    simp [Function.comp, charDigit_digitChar d (h d hd)]
  rw [List.map_congr_left this, List.map_id]

theorem all_isDig_map_digitChar (ds : List ℕ) (h : ∀ d ∈ ds, d < 10) :
    ∀ c ∈ ds.map digitChar, isDig c = true := by
  intro c hc
  obtain ⟨d, hd, rfl⟩ := List.mem_map.mp hc
  exact isDig_digitChar d (h d hd)

theorem parseNatPart_render (n : ℕ) (rest : List Char)
    (hrest : ∀ c, rest.head? = some c → isDig c = false) :
    parseNatPart (renderNatChars n ++ rest) = some (n, rest) := by
  have hall : ∀ c ∈ renderNatChars n, isDig c = true :=
    all_isDig_map_digitChar _ (natDigits_lt n)
  obtain ⟨htake, hdrop⟩ := takeWhile_append_all isDig (renderNatChars n) rest hall hrest
  unfold parseNatPart
  rw [htake, hdrop]
  have hne : renderNatChars n ≠ [] := by
    unfold renderNatChars
    simp [natDigits_ne_nil n]
  rw [if_neg hne]
  unfold renderNatChars
  rw [map_charDigit_digitChar _ (natDigits_lt n), digitsVal_natDigits]

theorem parseFracPart_nil (rest : List Char)
    (hdot : ∀ c, rest.head? = some c → c ≠ '.') :
    parseFracPart rest = some ([], rest) := by
  cases rest with
  | nil => rfl
  | cons c r2 =>
    simp only [parseFracPart]
    rw [if_neg (hdot c rfl)]

theorem parseFracPart_cons (ds : List ℕ) (hds : ds ≠ []) (h10 : ∀ d ∈ ds, d < 10)
    (rest : List Char) (hrest : ∀ c, rest.head? = some c → isDig c = false) :
    parseFracPart ('.' :: (ds.map digitChar ++ rest)) = some (ds, rest) := by
  simp only [parseFracPart, if_true]
  obtain ⟨htake, hdrop⟩ :=
    takeWhile_append_all isDig (ds.map digitChar) rest (all_isDig_map_digitChar ds h10) hrest
  simp only [htake, hdrop]
  rw [if_neg (by simpa using hds)]
  rw [map_charDigit_digitChar ds h10]

theorem renderNum_unsigned_parse (x : JsonNum) (hwf : wfNum x) (rest : List Char)
    (hrest : goodAfterNum rest) :
    parseUnsigned x.neg (renderNatChars x.ip ++
      (if x.frac = [] then [] else '.' :: x.frac.map digitChar) ++ rest) =
      some (x, rest) := by
  have hrest2 : ∀ c, rest.head? = some c → isDig c = false := by
    intro c hc
    cases rest with
    | nil => simp at hc
    | cons a r2 =>
      simp at hc
      subst hc
      exact hrest.1
  by_cases hfrac : x.frac = []
  · have hdot : ∀ c, rest.head? = some c → c ≠ '.' := by
      intro c hc
      cases rest with
      | nil => simp at hc
      | cons a r2 =>
        simp at hc
        subst hc
        exact hrest.2
    rw [if_pos hfrac, List.append_nil]
    simp only [parseUnsigned]
    rw [parseNatPart_render x.ip rest hrest2]
    simp only [Option.some_bind]
    rw [parseFracPart_nil rest hdot]
    simp only [Option.map_some']
    cases x
    simp_all
  · have hmid : ∀ c, ('.' :: (x.frac.map digitChar ++ rest)).head? = some c →
        isDig c = false := by
      intro c hc
      simp at hc
      subst hc
      decide
    rw [if_neg hfrac]
    simp only [parseUnsigned]
    rw [List.append_assoc]
    rw [show ('.' :: List.map digitChar x.frac ++ rest) =
      '.' :: (List.map digitChar x.frac ++ rest) from rfl]
    rw [parseNatPart_render x.ip _ hmid]
    simp only [Option.some_bind]
    rw [parseFracPart_cons x.frac hfrac hwf rest hrest2]
    simp only [Option.map_some']

theorem parseNum_render (x : JsonNum) (hwf : wfNum x) (rest : List Char)
    (hrest : goodAfterNum rest) :
    parseNum (renderNum x ++ rest) = some (x, rest) := by
  have key := renderNum_unsigned_parse x hwf rest hrest
  by_cases hneg : x.neg = true
  · have harg : renderNum x ++ rest =
        '-' :: (renderNatChars x.ip ++
          ((if x.frac = [] then [] else '.' :: x.frac.map digitChar) ++ rest)) := by
      unfold renderNum
      rw [hneg]
      simp [List.append_assoc]
    rw [harg]
    simp only [parseNum, if_true]
    rw [hneg] at key
    simpa only [List.append_assoc] using key
  · have hnegf : x.neg = false := by simpa using hneg
    obtain ⟨d, ds, hds⟩ : ∃ d ds, natDigits x.ip = d :: ds := by
      cases h : natDigits x.ip with
      | nil => exact absurd h (natDigits_ne_nil _)
      | cons a t => exact ⟨a, t, rfl⟩
    have hchars : renderNatChars x.ip = digitChar d :: ds.map digitChar := by
      unfold renderNatChars
      rw [hds]
      rfl
    have hd10 : d < 10 := natDigits_lt x.ip d (by rw [hds]; exact List.mem_cons_self _ _)
    have hnd : ¬ digitChar d = '-' := by
      have hdig := isDig_digitChar d hd10
      intro hcontra
      rw [hcontra] at hdig
      exact absurd hdig (by decide)
    have harg : renderNum x ++ rest =
        digitChar d :: (ds.map digitChar ++
          ((if x.frac = [] then [] else '.' :: x.frac.map digitChar) ++ rest)) := by
      unfold renderNum
      rw [hnegf, hchars]
      simp [List.append_assoc]
    rw [harg]
    simp only [parseNum]
    rw [if_neg hnd]
    rw [hnegf] at key
    simpa only [List.append_assoc, hchars, List.cons_append] using key

theorem parseStr_render (s : List Char) (hwf : wfStr s) (rest : List Char) :
    parseStr (renderStr s ++ rest) = some (s, rest) := by
  have harg : renderStr s ++ rest = '"' :: (s ++ ('"' :: rest)) := by
    unfold renderStr
    simp [List.append_assoc]
  rw [harg]
  obtain ⟨htake, hdrop⟩ := takeWhile_append_all (fun ch => ch != '"') s ('"' :: rest)
    (fun c hc => by simpa using (hwf c hc).1) (by intro c hc; simp at hc; subst hc; decide)
  simp only [parseStr, if_true]
  rw [htake, hdrop]

  rfl

theorem renderNum_ne_nil (x : JsonNum) : renderNum x ≠ [] := by
  unfold renderNum
  intro h
  rcases List.append_eq_nil.mp h with ⟨h1, h2⟩
  rcases List.append_eq_nil.mp h1 with ⟨h3, h4⟩
  have : renderNatChars x.ip ≠ [] := by
    unfold renderNatChars
    simp [natDigits_ne_nil x.ip]
  exact this h4

theorem renderNum_head (x : JsonNum) :
    ∃ c cs, renderNum x = c :: cs ∧ (c = '-' ∨ isDig c = true) := by
  obtain ⟨d, ds, hds⟩ : ∃ d ds, natDigits x.ip = d :: ds := by
    cases h : natDigits x.ip with
    | nil => exact absurd h (natDigits_ne_nil _)
    | cons a t => exact ⟨a, t, rfl⟩
  have hd10 : d < 10 := natDigits_lt x.ip d (by rw [hds]; exact List.mem_cons_self _ _)
  have hchars : renderNatChars x.ip = digitChar d :: ds.map digitChar := by
    unfold renderNatChars
    rw [hds]
    rfl
  by_cases hneg : x.neg = true
  · refine ⟨'-', renderNatChars x.ip ++
      (if x.frac = [] then [] else '.' :: x.frac.map digitChar), ?_, Or.inl rfl⟩
    unfold renderNum
    rw [hneg]
    simp
  · have hnegf : x.neg = false := by simpa using hneg
    refine ⟨digitChar d, ds.map digitChar ++
      (if x.frac = [] then [] else '.' :: x.frac.map digitChar), ?_,
      Or.inr (isDig_digitChar d hd10)⟩
    unfold renderNum
    rw [hnegf, hchars]
    simp

theorem sepByComma_cons_ne (a : List Char) (xs : List (List Char)) :
    ∃ z, sepByComma (a :: xs) = a ++ z := by
  cases xs with
  | nil => exact ⟨[], by simp [sepByComma]⟩
  | cons b t => exact ⟨',' :: sepByComma (b :: t), rfl⟩

theorem sepByComma_length (xss : List (List Char)) (h : ∀ l ∈ xss, l ≠ []) :
    xss.length ≤ (sepByComma xss).length := by
  induction xss with
  | nil => simp [sepByComma]
  | cons a t ih =>
    cases t with
    | nil =>
      have ha : a ≠ [] := h a (List.mem_cons_self _ _)
      have : 0 < a.length := List.length_pos.mpr ha
      simp only [sepByComma, List.length_cons, List.length_nil]
      omega
    | cons b t2 =>
      have ha : a ≠ [] := h a (List.mem_cons_self _ _)
      have hapos : 0 < a.length := List.length_pos.mpr ha
      have iht := ih (fun l hl => h l (List.mem_cons_of_mem a hl))
      rw [show sepByComma (a :: b :: t2) = a ++ ',' :: sepByComma (b :: t2) from rfl]
      simp only [List.length_append, List.length_cons] at iht ⊢
      omega

theorem parseNumElems_render (xs : List JsonNum) (hxs : xs ≠ []) (hwf : ∀ x ∈ xs, wfNum x)
    (rest : List Char) (fuel : ℕ) (hfuel : xs.length ≤ fuel) :
    parseNumElems fuel (sepByComma (xs.map renderNum) ++ ']' :: rest) = some (xs, rest) := by
  induction xs generalizing fuel rest with
  | nil => exact absurd rfl hxs
  | cons x t ih =>
    cases fuel with
    | zero => simp at hfuel
    | succ f =>
      cases t with
      | nil =>
        rw [show sepByComma ([x].map renderNum) = renderNum x from rfl]
        simp only [parseNumElems]
        rw [parseNum_render x (hwf x (List.mem_cons_self _ _)) (']' :: rest)
          ⟨by decide, by decide⟩]
        rfl
      | cons y t2 =>
        rw [show sepByComma ((x :: y :: t2).map renderNum) =
          renderNum x ++ ',' :: sepByComma ((y :: t2).map renderNum) from rfl]
        rw [show (renderNum x ++ ',' :: sepByComma ((y :: t2).map renderNum)) ++ ']' :: rest =
          renderNum x ++ ',' :: (sepByComma ((y :: t2).map renderNum) ++ ']' :: rest) from by
            simp [List.append_assoc]]
        simp only [parseNumElems]
        rw [parseNum_render x (hwf x (List.mem_cons_self _ _))
          (',' :: (sepByComma ((y :: t2).map renderNum) ++ ']' :: rest)) ⟨by decide, by decide⟩]
        show (parseNumElems f (sepByComma ((y :: t2).map renderNum) ++ ']' :: rest)).map
          (fun r => (x :: r.1, r.2)) = some (x :: y :: t2, rest)
        rw [ih (List.cons_ne_nil _ _) (fun z hz => hwf z (List.mem_cons_of_mem x hz)) rest f
          (by simp at hfuel ⊢; omega)]
        rfl

theorem parseNumList_render (xs : List JsonNum) (hwf : ∀ x ∈ xs, wfNum x) (rest : List Char) :
    parseNumList (renderNumList xs ++ rest) = some (xs, rest) := by
  cases xs with
  | nil =>
    rw [show renderNumList [] ++ rest = '[' :: ']' :: rest from rfl]
    rfl
  | cons x t =>
    obtain ⟨c, cs, hc, hcd⟩ := renderNum_head x
    obtain ⟨z, hz⟩ := sepByComma_cons_ne (renderNum x) (t.map renderNum)
    have hsep : sepByComma ((x :: t).map renderNum) = renderNum x ++ z := by
      rw [List.map_cons]
      exact hz
    have hcne : ¬ c = ']' := by
      rcases hcd with h | h
      · rw [h]; decide
      · intro hcontra
        rw [hcontra] at h
        exact absurd h (by decide)
    have harg : renderNumList (x :: t) ++ rest =
        '[' :: (c :: (cs ++ z ++ ']' :: rest)) := by
      unfold renderNumList
      rw [hsep, hc]
      simp [List.append_assoc]
    rw [harg]
    simp only [parseNumList, if_true]
    rw [if_neg hcne]
    have hback : c :: (cs ++ z ++ ']' :: rest) =
        sepByComma ((x :: t).map renderNum) ++ ']' :: rest := by
      rw [hsep, hc]
      simp [List.append_assoc]
    rw [hback]
    apply parseNumElems_render (x :: t) (List.cons_ne_nil _ _) hwf rest
    have h1 : ∀ l ∈ (x :: t).map renderNum, l ≠ [] := by
      intro l hl
      obtain ⟨q, _, hq⟩ := List.mem_map.mp hl
      rw [← hq]
      exact renderNum_ne_nil q
    have h2 := sepByComma_length _ h1
    simp only [List.length_map, List.length_cons] at h2
    simp only [List.length_append, List.length_cons]
    omega

theorem parsePair_render (p : List Char × JsonNum) (hk : wfStr p.1) (hv : wfNum p.2)
    (rest : List Char) (hrest : goodAfterNum rest) :
    parsePair (renderPair p ++ rest) = some (p, rest) := by
  have harg : renderPair p ++ rest = renderStr p.1 ++ (':' :: (renderNum p.2 ++ rest)) := by
    unfold renderPair
    simp [List.append_assoc]
  rw [harg]
  unfold parsePair
  rw [parseStr_render p.1 hk (':' :: (renderNum p.2 ++ rest))]
  simp only [Option.some_bind]
  show (if ':' = ':' then (parseNum (renderNum p.2 ++ rest)).map
    (fun r => ((p.1, r.1), r.2)) else none) = some (p, rest)
  rw [if_pos rfl, parseNum_render p.2 hv rest hrest]
  rfl

theorem renderPair_ne_nil (p : List Char × JsonNum) : renderPair p ≠ [] := by
  unfold renderPair renderStr
  simp

theorem renderPair_head (p : List Char × JsonNum) :
    renderPair p = '"' :: (p.1 ++ ['"'] ++ ':' :: renderNum p.2) := by
  unfold renderPair renderStr
  simp [List.append_assoc]

theorem parseObjElems_render (ps : List (List Char × JsonNum)) (hps : ps ≠ [])
    (hwf : ∀ p ∈ ps, wfStr p.1 ∧ wfNum p.2)
    (rest : List Char) (fuel : ℕ) (hfuel : ps.length ≤ fuel) :
    parseObjElems fuel (sepByComma (ps.map renderPair) ++ '}' :: rest) = some (ps, rest) := by
  induction ps generalizing fuel rest with
  | nil => exact absurd rfl hps
  | cons x t ih =>
    cases fuel with
    | zero => simp at hfuel
    | succ f =>
      cases t with
      | nil =>
        rw [show sepByComma ([x].map renderPair) = renderPair x from rfl]
        simp only [parseObjElems]
        rw [parsePair_render x (hwf x (List.mem_cons_self _ _)).1
          (hwf x (List.mem_cons_self _ _)).2 ('}' :: rest) ⟨by decide, by decide⟩]
        rfl
      | cons y t2 =>
        rw [show sepByComma ((x :: y :: t2).map renderPair) =
          renderPair x ++ ',' :: sepByComma ((y :: t2).map renderPair) from rfl]
        rw [show (renderPair x ++ ',' :: sepByComma ((y :: t2).map renderPair)) ++ '}' :: rest =
          renderPair x ++ ',' :: (sepByComma ((y :: t2).map renderPair) ++ '}' :: rest) from by
            simp [List.append_assoc]]
        simp only [parseObjElems]
        rw [parsePair_render x (hwf x (List.mem_cons_self _ _)).1
          (hwf x (List.mem_cons_self _ _)).2
          (',' :: (sepByComma ((y :: t2).map renderPair) ++ '}' :: rest)) ⟨by decide, by decide⟩]
        show (parseObjElems f (sepByComma ((y :: t2).map renderPair) ++ '}' :: rest)).map
          (fun r => (x :: r.1, r.2)) = some (x :: y :: t2, rest)
        rw [ih (List.cons_ne_nil _ _) (fun z hz => hwf z (List.mem_cons_of_mem x hz)) rest f
          (by simp at hfuel ⊢; omega)]
        rfl

theorem parseNumObj_render (ps : List (List Char × JsonNum))
    (hwf : ∀ p ∈ ps, wfStr p.1 ∧ wfNum p.2) (rest : List Char) :
    parseNumObj (renderNumObj ps ++ rest) = some (ps, rest) := by
  cases ps with
  | nil =>
    rw [show renderNumObj [] ++ rest = '{' :: '}' :: rest from rfl]
    rfl
  | cons x t =>
    obtain ⟨z, hz⟩ := sepByComma_cons_ne (renderPair x) (t.map renderPair)
    have hsep : sepByComma ((x :: t).map renderPair) = renderPair x ++ z := by
      rw [List.map_cons]
      exact hz
    have harg : renderNumObj (x :: t) ++ rest =
        '{' :: ('"' :: ((x.1 ++ ['"'] ++ ':' :: renderNum x.2) ++ z ++ '}' :: rest)) := by
      unfold renderNumObj
      rw [hsep, renderPair_head]
      simp [List.append_assoc]
    rw [harg]
    simp only [parseNumObj, if_true]
    rw [if_neg (by decide : ¬ ('"' : Char) = '}')]
    have hback : '"' :: ((x.1 ++ ['"'] ++ ':' :: renderNum x.2) ++ z ++ '}' :: rest) =
        sepByComma ((x :: t).map renderPair) ++ '}' :: rest := by
      rw [hsep, renderPair_head]
      simp [List.append_assoc]
    rw [hback]
    apply parseObjElems_render (x :: t) (List.cons_ne_nil _ _) hwf rest
    have h1 : ∀ l ∈ (x :: t).map renderPair, l ≠ [] := by
      intro l hl
      obtain ⟨q, _, hq⟩ := List.mem_map.mp hl
      rw [← hq]
      exact renderPair_ne_nil q
    have h2 := sepByComma_length _ h1
    simp only [List.length_map, List.length_cons] at h2
    simp only [List.length_append, List.length_cons]
    omega

theorem optBind_some {α β : Type} (a : α) (f : α → Option β) : (some a >>= f) = f a := rfl

theorem expectChars_append (lit rest : List Char) :
    expectChars lit (lit ++ rest) = some rest := by
  unfold expectChars
  rw [List.take_left, List.drop_left]
  simp

theorem parseForecastResult_render (r : ForecastResult) (h : wfForecast r) :
    parseForecastResult (renderForecastResult r) = some r := by
  obtain ⟨hmt, hys, hps, hlo, hup⟩ := h
  have harg : renderForecastResult r =
      ('{' :: renderStr "model_type".toList ++ [':']) ++
      (renderStr r.model_type ++
      ((',' :: renderStr "years".toList ++ [':']) ++
      (renderNumList r.years ++
      ((',' :: renderStr "predictions".toList ++ [':']) ++
      (renderNumList r.predictions ++
      ((',' :: renderStr "lower_ci".toList ++ [':']) ++
      (renderNumList r.lower_ci ++
      ((',' :: renderStr "upper_ci".toList ++ [':']) ++
      (renderNumList r.upper_ci ++ (['}'] ++ [])))))))))) := by
    unfold renderForecastResult
    simp [List.append_assoc]
  rw [parseForecastResult, harg]
  rw [expectChars_append]
  simp only [optBind_some]
  rw [parseStr_render r.model_type hmt]
  simp only [optBind_some]
  rw [expectChars_append]
  simp only [optBind_some]
  rw [parseNumList_render r.years hys]
  simp only [optBind_some]
  rw [expectChars_append]
  simp only [optBind_some]
  rw [parseNumList_render r.predictions hps]
  simp only [optBind_some]
  rw [expectChars_append]
  simp only [optBind_some]
  rw [parseNumList_render r.lower_ci hlo]
  simp only [optBind_some]
  rw [expectChars_append]
  simp only [optBind_some]
  rw [parseNumList_render r.upper_ci hup]
  simp only [optBind_some]
  rw [expectChars_append]
  simp only [optBind_some]
  rfl

theorem parseScenarioDefinition_render (s : ScenarioDefinition) (h : wfScenario s) :
    parseScenarioDefinition (renderScenarioDefinition s) = some s := by
  obtain ⟨hnm, hadj⟩ := h
  have harg : renderScenarioDefinition s =
      ('{' :: renderStr "name".toList ++ [':']) ++
      (renderStr s.name ++
      ((',' :: renderStr "adjustments".toList ++ [':']) ++
      (renderNumObj s.adjustments ++ (['}'] ++ [])))) := by
    unfold renderScenarioDefinition
    simp [List.append_assoc]
  rw [parseScenarioDefinition, harg]
  rw [expectChars_append]
  simp only [optBind_some]
  rw [parseStr_render s.name hnm]
  simp only [optBind_some]
  rw [expectChars_append]
  simp only [optBind_some]
  rw [parseNumObj_render s.adjustments hadj]
  simp only [optBind_some]
  rw [expectChars_append]
  simp only [optBind_some]
  rfl

theorem parseDecompositionResult_render (d : DecompositionResult)
    (h : wfDecompositionResult d) :
    parseDecompositionResult (renderDecompositionResult d) = some d := by
  obtain ⟨hb, hds, ht⟩ := h
  have harg : renderDecompositionResult d =
      ('{' :: renderStr "base".toList ++ [':']) ++
      (renderNum d.base ++
      ((',' :: renderStr "deltas".toList ++ [':']) ++
      (renderNumObj d.deltas ++
      ((',' :: renderStr "total".toList ++ [':']) ++
      (renderNum d.total ++ (['}'] ++ [])))))) := by
    unfold renderDecompositionResult
    simp [List.append_assoc]
  rw [parseDecompositionResult, harg]
  rw [expectChars_append]
  simp only [optBind_some]
  rw [parseNum_render d.base hb (((',' :: renderStr "deltas".toList ++ [':']) ++
      (renderNumObj d.deltas ++
      ((',' :: renderStr "total".toList ++ [':']) ++
      (renderNum d.total ++ (['}'] ++ []))))))
    (by show isDig ',' = false ∧ (',' : Char) ≠ '.'; exact ⟨by decide, by decide⟩)]
  simp only [optBind_some]
  rw [expectChars_append]
  simp only [optBind_some]
  rw [parseNumObj_render d.deltas hds]
  simp only [optBind_some]
  rw [expectChars_append]
  simp only [optBind_some]
  rw [parseNum_render d.total ht (['}'] ++ [])
    (by show isDig '}' = false ∧ ('}' : Char) ≠ '.'; exact ⟨by decide, by decide⟩)]
  simp only [optBind_some]
  rw [expectChars_append]
  simp only [optBind_some]
  rfl

/-- C4: `deepClone` — JSON.parse composed with JSON.stringify — is the
identity on well-formed ForecastResult, ScenarioDefinition and
DecompositionResult values; in particular every numeric field survives
the round trip unchanged. -/
theorem deep_clone_round_trip (r : ForecastResult) (s : ScenarioDefinition)
    (d : DecompositionResult) (hr : wfForecast r) (hs : wfScenario s)
    (hd : wfDecompositionResult d) :
    deepCloneForecast r = some r ∧ deepCloneScenario s = some s ∧
      deepCloneDecomposition d = some d :=
  ⟨parseForecastResult_render r hr, parseScenarioDefinition_render s hs,
    parseDecompositionResult_render d hd⟩

/-- Witness for C4 at small concrete records: an ensemble forecast with
one year, the baseline scenario with one adjustment, and the
decomposition example of spec section 8. -/
theorem deep_clone_round_trip_witness :
    wfForecast ⟨"ensemble".toList, [⟨false, 2025, []⟩], [⟨false, 12, [5]⟩],
        [⟨false, 10, []⟩], [⟨true, 15, [2, 5]⟩]⟩ ∧
    wfScenario ⟨"baseline".toList, [("PDRB".toList, ⟨true, 10, []⟩)]⟩ ∧
    wfDecompositionResult ⟨⟨false, 1000, []⟩,
        [("PKB".toList, ⟨false, 80, []⟩), ("BBNKB".toList, ⟨false, 30, []⟩)],
        ⟨false, 1150, []⟩⟩ ∧
    (deepCloneForecast ⟨"ensemble".toList, [⟨false, 2025, []⟩], [⟨false, 12, [5]⟩],
          [⟨false, 10, []⟩], [⟨true, 15, [2, 5]⟩]⟩ =
        some ⟨"ensemble".toList, [⟨false, 2025, []⟩], [⟨false, 12, [5]⟩],
          [⟨false, 10, []⟩], [⟨true, 15, [2, 5]⟩]⟩ ∧
      deepCloneScenario ⟨"baseline".toList, [("PDRB".toList, ⟨true, 10, []⟩)]⟩ =
        some ⟨"baseline".toList, [("PDRB".toList, ⟨true, 10, []⟩)]⟩ ∧
      deepCloneDecomposition ⟨⟨false, 1000, []⟩,
          [("PKB".toList, ⟨false, 80, []⟩), ("BBNKB".toList, ⟨false, 30, []⟩)],
          ⟨false, 1150, []⟩⟩ =
        some ⟨⟨false, 1000, []⟩,
          [("PKB".toList, ⟨false, 80, []⟩), ("BBNKB".toList, ⟨false, 30, []⟩)],
          ⟨false, 1150, []⟩⟩) := by
  have h1 : wfForecast ⟨"ensemble".toList, [⟨false, 2025, []⟩], [⟨false, 12, [5]⟩],
      [⟨false, 10, []⟩], [⟨true, 15, [2, 5]⟩]⟩ := by
    unfold wfForecast wfStr wfNum
    decide
  have h2 : wfScenario ⟨"baseline".toList, [("PDRB".toList, ⟨true, 10, []⟩)]⟩ := by
    unfold wfScenario wfStr wfNum
    decide
  have h3 : wfDecompositionResult ⟨⟨false, 1000, []⟩,
      [("PKB".toList, ⟨false, 80, []⟩), ("BBNKB".toList, ⟨false, 30, []⟩)],
      ⟨false, 1150, []⟩⟩ := by
    unfold wfDecompositionResult wfStr wfNum
    decide
  exact ⟨h1, h2, h3, deep_clone_round_trip _ _ _ h1 h2 h3⟩

end ProPad
